import Mathlib
/-!
Verification of the CI job-generation tool (matrix expansion, requirement
preset resolution, job compilation, validation) against its natural-language
specification.  The Go sources are shallowly embedded: Go maps become
association lists with first-match lookup (Go map iteration order is
irrelevant to every property stated here, which is always about lookup),
Go `nil` maps become `none` of an `Option`, in-place mutation becomes
explicit state passing, and `log.Fatalf` / `os.Exit` become `Option`
results (`none` = fatal abort).
-/
set_option maxRecDepth 10000
/- ===================== Definitions ===================== -/
/-- Go `map[string]string`, as an association list with first-match lookup.
Only lookup (not iteration order) is ever observed by the properties below. -/
abbrev Gmap := List (String × String)

/-- Go map read `m[k]` returning `(value, ok)`. -/
def lookupG (m : Gmap) (k : String) : Option String :=
  (m.find? (fun p => p.1 == k)).map (·.2)

/-- Go map write `m[k] = v` (pure: returns the updated map). -/
def gput (m : Gmap) (k v : String) : Gmap :=
  m.filter (fun p => p.1 != k) ++ [(k, v)]

/-- `contains` from the config package: membership of `item` in `slice`
(the Go code materializes a set first; semantically just membership). -/
def goContains (slice : List String) (item : String) : Bool :=
  slice.any (fun s => s == item)

/-- `mergeMaps` from the config package: union of two maps where, on a
duplicated key, the value in `mp2` overwrites that of `mp1`. -/
def mergeMaps (mp1 mp2 : Gmap) : Gmap :=
  mp1.filter (fun p => (lookupG mp2 p.1).isNone) ++ mp2

/- ===================== Shared data model (k8s / prow types) ===================== -/

/-- `v1.EnvVar` (the fields this tool reads and writes). -/
structure EnvVar where
  name : String
  value : String
deriving DecidableEq, Repr

/-- `v1.Volume` (keyed by name; the volume source is opaque to the merge). -/
structure Volume where
  name : String
deriving DecidableEq, Repr

/-- `v1.VolumeMount` (keyed by mount path in the merge). -/
structure VolumeMount where
  name : String
  mountPath : String
deriving DecidableEq, Repr

/-- Modelled from the spec: `spec.Secret` of the prowgen spec package is not
under src/ (only its use in `applySecrets` is); the spec describes secret
declarations as opaque named entries that are collected and serialized. -/
structure Secret where
  name : String
deriving DecidableEq, Repr

/-- `v1.ResourceRequirements` (opaque to every property here). -/
structure ResourceRequirements where
  limits : Gmap
  requests : Gmap
deriving DecidableEq, Repr

/-- `v1.Container` (the fields this tool reads and writes;
`SecurityContext` is reduced to the one flag the tool sets). -/
structure Container where
  image : String
  imagePullPolicy : String
  command : List String
  args : List String
  env : List EnvVar
  volumeMounts : List VolumeMount
  resources : Option ResourceRequirements
  privileged : Bool
deriving DecidableEq, Repr

/-- `v1.PodSpec` (the fields this tool reads and writes). -/
structure PodSpec where
  containers : List Container
  nodeSelector : Option Gmap
  volumes : List Volume
deriving DecidableEq, Repr

/-- `RequirementPreset`: its type declaration is not under src/; modelled
from the spec (§3: annotations, labels, environment variables, args,
volumes, volume mounts, secrets) exactly as the decorator's
`mergeRequirement` consumes it.  The optional partial pod-spec overlay
(merged through the external mergo library) is not modelled; no claim
depends on it. -/
structure RequirementPreset where
  annotations : Gmap
  labels : Gmap
  env : List EnvVar
  args : List String
  volumes : List Volume
  volumeMounts : List VolumeMount
  secrets : List Secret
deriving DecidableEq, Repr

/-- The Go zero value of `RequirementPreset` (what `presetMap[req]` yields
for a missing key). -/
def emptyPreset : RequirementPreset := ⟨[], [], [], [], [], [], []⟩

/-- `prowjob.Refs` (the fields `createExtraRefs` populates). -/
structure Refs where
  org : String
  repo : String
  baseRef : String
  pathAlias : Option String
deriving DecidableEq, Repr

/-- `config.JobBase` (the fields this tool populates; the decoration config
is reduced to its timeout and the decorate flag). -/
structure JobBase where
  name : String
  maxConcurrency : Int
  spec : Option PodSpec
  labels : Gmap
  annotations : Gmap
  cluster : String
  extraRefs : List Refs
  decorate : Bool
  timeout : Option Nat
deriving DecidableEq, Repr

namespace Config

/-- The matrix axis map `map[string][]string`. -/
abbrev Matrix := List (String × List String)

def matrixHas (matrix : Matrix) (k : String) : Bool :=
  matrix.any (fun p => p.1 == k)

/-- Go `matrix[k]` (a missing key yields the nil slice). -/
def matrixGet (matrix : Matrix) (k : String) : List String :=
  ((matrix.find? (fun p => p.1 == k)).map (·.2)).getD []

/-- Character class `[_a-zA-Z0-9.-]` of `variableSubstitutionFormat`. -/
def isVarChar (c : Char) : Bool :=
  c == '_' || c.isAlpha || c.isDigit || c == '.' || c == '-'

/-- The scan performed by `variableSubstitutionRegex.FindAllString`: all
non-overlapping, leftmost matches of `\$\([_a-zA-Z0-9.-]+(\.[_a-zA-Z0-9.-]+)*\)`
(equivalent to `\$\([_a-zA-Z0-9.-]+\)` since the class contains `.`).  The
regex match at a given start succeeds exactly on the maximal run of class
characters followed by `)`; on failure the engine advances one character.
The `fuel` argument is only a structural-termination bound (each step
consumes at least one character), so `fuel = length` is always enough. -/
def findMatches : Nat → List Char → List String
  | 0, _ => []
  | _ + 1, [] => []
  | fuel + 1, c :: cs =>
    if c == '$' then
      match cs with
      | '(' :: rest =>
        let run := rest.takeWhile isVarChar
        match rest.dropWhile isVarChar with
        | ')' :: tail =>
          if run.isEmpty then findMatches fuel cs
          else ("$(" ++ String.mk run ++ ")") :: findMatches fuel tail
        | _ => findMatches fuel cs
      | _ => findMatches fuel cs
    else findMatches fuel cs

/-- Go `strings.TrimPrefix` (over the character lists, so that it reduces
in the kernel). -/
def goTrimPre (s pre : String) : String :=
  if pre.data.isPrefixOf s.data then String.mk (s.data.drop pre.data.length) else s

/-- Go `strings.TrimSuffix`. -/
def goTrimSuf (s suf : String) : String :=
  if suf.data.isSuffixOf s.data then
    String.mk (s.data.take (s.data.length - suf.data.length))
  else s

/-- `stripVarSubExpression`: the value between `$(` and `)`. -/
def stripVarSubExpression (expression : String) : String :=
  goTrimSuf (goTrimPre expression "$(") ")"

/-- The strip-and-deduplicate loop of `validateString` (first appearance
order preserved; `seen` is the Go `set` map). -/
def stripDedup : List String → List String → List String
  | [], _ => []
  | e :: rest, seen =>
    let e' := stripVarSubExpression e
    if goContains seen e' then stripDedup rest seen
    else e' :: stripDedup rest (e' :: seen)

/-- `validateString`: all distinct substitution expressions, stripped. -/
def validateString (value : String) : List String :=
  stripDedup (findMatches value.data.length value.data) []

/-- `getVarSubstitutionExpressions`. -/
def getVarSubstitutionExpressions (yamlStr : String) : List String :=
  validateString yamlStr

/-- `strings.ReplaceAll`: non-overlapping left-to-right replacement of every
instance of `pat` by `rep`.  The pattern is never empty here (it always has
the shape `$(matrix.<axis>)`).  `fuel` is a structural-termination bound;
every step consumes at least one character, so `fuel = length` suffices. -/
def replaceAllChars : Nat → List Char → List Char → List Char → List Char
  | 0, s, _, _ => s
  | _ + 1, [], _, _ => []
  | fuel + 1, c :: cs, pat, rep =>
    if pat.isPrefixOf (c :: cs) then
      rep ++ replaceAllChars fuel ((c :: cs).drop pat.length) pat rep
    else c :: replaceAllChars fuel cs pat rep

/-- `replace`: textual substitution of one axis placeholder. -/
def replaceGo (str expKey expVal : String) : String :=
  let pat := ("$(matrix." ++ expKey ++ ")").data
  String.mk (replaceAllChars str.data.length str.data pat expVal.data)

/-- `resolveCombinations`: depth-first Cartesian-product expansion.  The Go
version appends into `*res` through a pre-order recursion; flattening the
per-value recursions in order is the same list. -/
def resolveCombinations : List String → String → Matrix → List String
  | [], dest, _ => [dest]
  | c :: rest, dest, matrix =>
    (matrixGet matrix c).flatMap fun v =>
      resolveCombinations rest (replaceGo dest c v) matrix

/-- The `combs` list built by `applyMatrix`: recognized axes of the
template, in first-appearance order (factored out of `applyMatrix` so that
claims can refer to it). -/
def matrixCombs (yamlStr : String) (matrix : Matrix) : List String :=
  (getVarSubstitutionExpressions yamlStr).filterMap fun exp =>
    let exp' := goTrimPre exp "matrix."
    if matrixHas matrix exp' then some exp' else none

/-- `applyMatrix`. -/
def applyMatrix (yamlStr : String) (matrix : Matrix) : List String :=
  let subsExps := getVarSubstitutionExpressions yamlStr
  if subsExps.isEmpty then [yamlStr]
  else resolveCombinations (matrixCombs yamlStr matrix) yamlStr matrix

end Config

namespace Decorator

/-- The env-var part of `mergeRequirement`: each preset env var is appended
to a container's env only if no env var with the same name is already
present (the Go loop appends to the evolving `containers[i].Env`, so later
entries of the same preset see earlier appends). -/
def mergeEnv (existing : List EnvVar) : List EnvVar → List EnvVar
  | [] => existing
  | e1 :: rest =>
    if existing.any (fun e2 => e2.name == e1.name) then mergeEnv existing rest
    else mergeEnv (existing ++ [e1]) rest

/-- The volume-mount part of `mergeRequirement`: append only if no mount
with the same mount path is present. -/
def mergeMounts (existing : List VolumeMount) : List VolumeMount → List VolumeMount
  | [] => existing
  | v1 :: rest =>
    if existing.any (fun v2 => v2.mountPath == v1.mountPath) then mergeMounts existing rest
    else mergeMounts (existing ++ [v1]) rest

/-- The volume part of `mergeRequirement`: append only if no volume with
the same name is present. -/
def mergeVolumes (existing : List Volume) : List Volume → List Volume
  | [] => existing
  | v1 :: rest =>
    if existing.any (fun v2 => v2.name == v1.name) then mergeVolumes existing rest
    else mergeVolumes (existing ++ [v1]) rest

/-- `mergeRequirement`'s effect on one container.  In the Go code the args,
env and volume-mount loops each run across all containers, but every
container is updated independently of the others, so composing the three
per container is the same function. -/
def mergeContainer (c : Container) (req : RequirementPreset) : Container :=
  { c with args := c.args ++ req.args,
           env := mergeEnv c.env req.env,
           volumeMounts := mergeMounts c.volumeMounts req.volumeMounts }

/-- `mergeRequirement`: overlay one requirement preset onto the job
(annotations and labels key-wise upsert, later wins; containers and
volumes as above).  The optional `req.PodSpec` overlay (external mergo
merge) is not modelled. -/
def mergeRequirement (annotations labels : Gmap) (s : PodSpec)
    (req : RequirementPreset) : Gmap × Gmap × PodSpec :=
  (req.annotations.foldl (fun acc p => gput acc p.1 p.2) annotations,
   req.labels.foldl (fun acc p => gput acc p.1 p.2) labels,
   { s with containers := s.containers.map (fun c => mergeContainer c req),
            volumes := mergeVolumes s.volumes req.volumes })

/-- `resolveRequirements`: fold the presets, in order, over the job state
(`nil` pod spec means nothing is merged). -/
def resolveRequirements (annotations labels : Gmap) (s : Option PodSpec)
    (requirements : List RequirementPreset) : Gmap × Gmap × Option PodSpec :=
  match s with
  | none => (annotations, labels, none)
  | some ps =>
    let r := requirements.foldl
      (fun acc req => mergeRequirement acc.1 acc.2.1 acc.2.2 req)
      (annotations, labels, ps)
    (r.1, r.2.1, some r.2.2)

/-- The env entries of a list that carry a given name. -/
def envEntries (l : List EnvVar) (n : String) : List EnvVar :=
  l.filter (fun e => e.name == n)

/-- Whether an env var with the given name is present. -/
def hasEnv (l : List EnvVar) (n : String) : Bool :=
  l.any (fun e => e.name == n)

/-- The first env entry named `n` declared by the first preset, in
resolution order, that declares `n` at all. -/
def firstPresetEnv (ps : List RequirementPreset) (n : String) : Option EnvVar :=
  ps.findSome? (fun p => p.env.find? (fun e => e.name == n))

/-- The collection loop of `applySecrets`: every preset's secret
declarations, appended in resolution order. -/
def collectSecrets (presets : List RequirementPreset) : List Secret :=
  presets.foldl (fun acc req => acc ++ req.secrets) []

/-- Modelled from the spec at the `json.Marshal` boundary: the external
JSON serialization of the collected secret list, as a concrete injective
encoding. -/
def serializeSecrets (secrets : List Secret) : String :=
  "[" ++ String.intercalate ","
    (secrets.map (fun s => "\x7b\"name\":\"" ++ s.name ++ "\"\x7d")) ++ "]"

/-- `applySecrets`: if any resolved preset carries secrets, they are
serialized into a single `GCP_SECRETS` env var on the job's sole
container; a job whose pod spec does not have exactly one container is a
fatal configuration error (`log.Fatalf`, modelled as `none`; a nil pod
spec, which the Go code would dereference, is likewise modelled as a
fatal outcome). -/
def applySecrets (job : JobBase) (presets : List RequirementPreset) : Option JobBase :=
  if (collectSecrets presets).isEmpty then some job
  else
    match job.spec with
    | none => none
    | some s =>
      match s.containers with
      | [c] => some { job with spec := some { s with containers :=
          [{ c with env := c.env
              ++ [⟨"GCP_SECRETS", serializeSecrets (collectSecrets presets)⟩] }] } }
      | _ => none

end Decorator

/- ===================== Config package: data model and input reading ===================== -/

/-- Association-list counterparts of the remaining Go maps. -/
def alookup {α : Type} (m : List (String × α)) (k : String) : Option α :=
  (m.find? (fun p => p.1 == k)).map (·.2)

/-- Go map write `m[k] = v` for any value type. -/
def aput {α : Type} (m : List (String × α)) (k : String) (v : α) : List (String × α) :=
  m.filter (fun p => p.1 != k) ++ [(k, v)]

/-- The keys of a Go map (used only for membership, so order is irrelevant). -/
def akeys {α : Type} (m : List (String × α)) : List String :=
  m.map (·.1)

namespace Config

/-- `map[string]v1.ResourceRequirements`. -/
abbrev RMap := List (String × ResourceRequirements)

/-- `map[string]RequirementPreset`. -/
abbrev PresetMap := List (String × RequirementPreset)

/-- `TestgridConfig`. -/
structure TestgridConfig where
  enabled : Bool := false
  alertEmail : String := ""
  numFailuresToAlert : String := ""
deriving DecidableEq, Repr

/-- `Job` (one declared job entry; Go zero values as defaults). -/
structure Job where
  name : String := ""
  command : List String := []
  env : List EnvVar := []
  types : List String := []
  timeout : Option Nat := none
  repos : List String := []
  image : String := ""
  imagePullPolicy : String := ""
  disableReleaseBranching : Bool := false
  interval : String := ""
  cron : String := ""
  regex : String := ""
  maxConcurrency : Int := 0
  cluster : String := ""
  nodeSelector : Option Gmap := none
  annotations : Option Gmap := none
  labels : Option Gmap := none
  resources : String := ""
  modifiers : List String := []
  requirements : List String := []
deriving DecidableEq, Repr

/-- `JobsConfig` (one job-group document; Go zero values as defaults). -/
structure JobsConfig where
  jobs : List Job := []
  repo : String := ""
  org : String := ""
  branches : List String := []
  matrix : Matrix := []
  env : List EnvVar := []
  image : String := ""
  imagePullPolicy : String := ""
  supportReleaseBranching : Bool := false
  cluster : String := ""
  nodeSelector : Option Gmap := none
  annotations : Option Gmap := none
  labels : Option Gmap := none
  resources : RMap := []
  requirements : List String := []
  requirementPresets : PresetMap := []
deriving DecidableEq, Repr

/-- `GlobalConfig` (process-wide settings; the maps that `ReadJobConfig`
aliases are `Option` so that a Go nil map is distinguishable). -/
structure GlobalConfig where
  autogenHeader : String := "# THIS FILE IS AUTOGENERATED, DO NOT EDIT IT MANUALLY."
  pathAliases : Gmap := []
  cluster : String := ""
  nodeSelector : Option Gmap := none
  testgridConfig : TestgridConfig := {}
  annotations : Option Gmap := none
  labels : Option Gmap := none
  resources : Option RMap := none
  baseRequirements : List String := []
  requirementPresets : Option PresetMap := none
deriving DecidableEq, Repr

/-- The outcome of `Client.ReadJobConfig`: the job-group document as
returned, and the global configuration as it stands after the call. -/
structure ReadJobConfigResult where
  globalAfter : GlobalConfig
  jobsConfig : JobsConfig
deriving DecidableEq, Repr

/-- `Client.ReadJobConfig`, after the YAML unmarshalling boundary.  The Go
code writes the document's local resource profiles and requirement presets
into `resources`/`requirementPresets` maps that, when the corresponding
global map is non-nil, ARE the global configuration's maps (Go maps are
references; the code only allocates a fresh map when the global one is
nil).  The model therefore returns the global configuration as mutated
through that alias, alongside the document. -/
def readJobConfig (globalConfig : GlobalConfig) (parsed : JobsConfig) : ReadJobConfigResult :=
  let branches := if parsed.branches.isEmpty then ["master"] else parsed.branches
  let resPair : Option RMap × RMap :=
    match globalConfig.resources with
    | none => (none, parsed.resources.foldl (fun m p => aput m p.1 p.2) [])
    | some gr =>
      let m := parsed.resources.foldl (fun m p => aput m p.1 p.2) gr
      (some m, m)
  let prePair : Option PresetMap × PresetMap :=
    match globalConfig.requirementPresets with
    | none => (none, parsed.requirementPresets.foldl (fun m p => aput m p.1 p.2) [])
    | some gp =>
      let m := parsed.requirementPresets.foldl (fun m p => aput m p.1 p.2) gp
      (some m, m)
  ⟨{ globalConfig with resources := resPair.1, requirementPresets := prePair.1 },
   { parsed with branches := branches, resources := resPair.2,
                 requirementPresets := prePair.2 }⟩

/- ===================== Validator (config package) ===================== -/

/-- `validate`: `input` must be one of `options`. -/
def validate (input : String) (options : List String) (description : String) : Option String :=
  if goContains options input then none
  else some ("\x27" ++ input ++ "\x27 is not a valid " ++ description
    ++ ". Must be one of " ++ String.intercalate ", " options)

/-- Go `strings.Split` with a one-character separator. -/
def splitOnChar (sep : Char) : List Char → List (List Char)
  | [] => [[]]
  | x :: xs =>
    let r := splitOnChar sep xs
    if x == sep then [] :: r
    else
      match r with
      | h :: t => (x :: h) :: t
      | [] => [[x]]

/-- The parts of a Go `strings.Split(s, sep)` for a one-character `sep`. -/
def goSplit (s : String) (sep : Char) : List String :=
  (splitOnChar sep s.data).map String.mk

/-- The periodic-schedule branch of `ValidateJobConfig`, for one job whose
types include periodic: cron and interval are mutually exclusive, at least
one is required, and the one that is set must parse.  `cronValid` and
`durValid` abstract the external `cron.Parse` and `time.ParseDuration`
grammars. -/
def periodicScheduleErrors (cronValid durValid : String → Bool)
    (fileName : String) (job : Job) : List String :=
  if goContains job.types "periodic" then
    if job.cron != "" && job.interval != "" then
      [fileName ++ ": cron and interval cannot be both set in periodic " ++ job.name]
    else if job.cron == "" && job.interval == "" then
      [fileName ++ ": cron and interval cannot be both empty in periodic " ++ job.name]
    else if job.cron != "" then
      if cronValid job.cron then []
      else [fileName ++ ": invalid cron string " ++ job.cron ++ " in periodic " ++ job.name]
    else if job.interval != "" then
      if durValid job.interval then []
      else [fileName ++ ": cannot parse duration " ++ job.interval ++ " in periodic " ++ job.name]
    else []
  else []

/-- The per-job checks of `ValidateJobConfig`, in source order: resource
reference, modifiers, job-level requirement names, periodic schedule,
trigger types, repo shape. -/
def jobValidationErrors (cronValid durValid : String → Bool) (fileName : String)
    (jobsConfig : JobsConfig) (requirements : List String) (job : Job) : List String :=
  (if job.resources != "" && (alookup jobsConfig.resources job.resources).isNone then
    [fileName ++ ": job \x27" ++ job.name ++ "\x27 has nonexistant resource \x27"
      ++ job.resources ++ "\x27"]
   else [])
  ++ job.modifiers.filterMap (fun mod => validate mod ["hidden", "optional", "skipped"] "status")
  ++ job.requirements.filterMap (fun req => validate req requirements "requirements")
  ++ periodicScheduleErrors cronValid durValid fileName job
  ++ job.types.filterMap (fun t => validate t ["postsubmit", "presubmit", "periodic"] "type")
  ++ job.repos.filterMap (fun repo =>
      if (goSplit repo '/').length != 2 then
        some (fileName ++ ": repo " ++ repo ++ " not valid, should take form org/repo")
      else none)

/-- `ValidateJobConfig` as the list of errors it aggregates (the Go code
exits when the list is non-empty).  Note which names it checks: the
image, the group-level requirement names, and the per-job checks — the
global base requirement names are nowhere consulted. -/
def validateJobConfig (cronValid durValid : String → Bool) (fileName : String)
    (jobsConfig : JobsConfig) : List String :=
  (if jobsConfig.image == "" then [fileName ++ ": image must be set"] else [])
  ++ jobsConfig.requirements.filterMap
      (fun r => validate r (akeys jobsConfig.requirementPresets) "requirements")
  ++ jobsConfig.jobs.flatMap
      (jobValidationErrors cronValid durValid fileName jobsConfig
        (akeys jobsConfig.requirementPresets))

/-- Modelled from the spec: the config package's three-argument
`resolveRequirements(job.Labels, job.Spec, presets)` is not under src/
(only its call site in `applyRequirements` is).  Per §4.2 it overlay-merges
each preset, in order, onto the job's labels and pod spec; it is
implemented here exactly as the decorator package's `mergeRequirement`
does for the fields this version receives (labels, container args / env /
volume mounts, volumes). -/
def resolveRequirementsCfg (job : JobBase) (presets : List RequirementPreset) : JobBase :=
  match job.spec with
  | none => job
  | some s =>
    let r := presets.foldl (fun acc req =>
      (req.labels.foldl (fun m p => gput m p.1 p.2) acc.1,
       { acc.2 with
          containers := acc.2.containers.map (fun c => Decorator.mergeContainer c req),
          volumes := Decorator.mergeVolumes acc.2.volumes req.volumes }))
      (job.labels, s)
    { job with labels := r.1, spec := some r.2 }

/-- `applyRequirements` (config package): each requirement name is looked
up in the preset map — a missing name (or a nil map) yields the Go
zero-value preset, with no error signal of any kind — and the presets are
resolved onto the job. -/
def applyRequirements (job : JobBase) (requirements : List String)
    (presetMap : Option PresetMap) : JobBase :=
  resolveRequirementsCfg job
    (requirements.map (fun req => (alookup (presetMap.getD []) req).getD emptyPreset))

/-- A preset store that knows only the name `existing`. -/
def presetStoreC4 : PresetMap :=
  [("existing", { emptyPreset with labels := [("preset-label", "yes")] })]

/-- A well-formed job-group document whose only job references only the
resolvable requirement `existing`. -/
def jobsConfigC4 : JobsConfig :=
  { image := "gcr.io/img",
    jobs := [{ name := "unit", command := ["make", "test"],
               requirements := ["existing"] }],
    requirementPresets := presetStoreC4 }

/-- A compiled job base as `createJobBase` would shape it. -/
def jobBaseC4 : JobBase :=
  ⟨"unit_repo", 0,
   some ⟨[⟨"gcr.io/img", "", ["make"], [], [], [], none, true⟩], none, []⟩,
   [], [], "", [], true, none⟩

/-- Global settings declaring the base requirement `ghost`, which the
preset store does not know. -/
def settingsC4 : GlobalConfig :=
  { baseRequirements := ["ghost"], requirementPresets := some presetStoreC4 }

/-- A global resource profile present at load time. -/
def rrDefaultC5 : ResourceRequirements := ⟨[("cpu", "1")], [("cpu", "1")]⟩

/-- A resource profile declared locally by one job-group document. -/
def rrCustomC5 : ResourceRequirements := ⟨[("cpu", "2")], []⟩

/-- Global settings at load time: a non-nil resource-profile map. -/
def globalC5 : GlobalConfig := { resources := some [("default", rrDefaultC5)] }

/-- A job-group document declaring one local resource profile. -/
def parsedC5 : JobsConfig := { image := "img", resources := [("custom", rrCustomC5)] }

/- ===================== Job Compiler: createContainer / createJobBase ===================== -/

/-- `createContainer`: image, pull policy and env fall back to job-group
values; the named resource profile (default if unset) is applied when
present in the effective resource map. -/
def createContainer (jobConfig : JobsConfig) (job : Job) (resources : RMap) : List Container :=
  [{ image := if job.image == "" then jobConfig.image else job.image,
     imagePullPolicy :=
       if job.imagePullPolicy == "" then jobConfig.imagePullPolicy else job.imagePullPolicy,
     command := job.command,
     args := [],
     env := if job.env.isEmpty then jobConfig.env else job.env ++ jobConfig.env,
     volumeMounts := [],
     resources := alookup resources (if job.resources == "" then "default" else job.resources),
     privileged := true }]

/-- `createExtraRefs`: each extra repo `org/repo[@branch]` becomes a
checkout ref (default branch when unpinned), with the org's path alias
applied when configured.  The Go code indexes `orgrepo[1]` and would panic
on a string without `/`; that is modelled as an empty component. -/
def createExtraRefs (extraRepos : List String) (defaultBranch : String)
    (pathAliases : Gmap) : List Refs :=
  extraRepos.map (fun extraRepo =>
    let repobranch := goSplit extraRepo '@'
    let branch := if repobranch.length > 1 then repobranch.getD 1 defaultBranch
                  else defaultBranch
    let orgrepo := goSplit (repobranch.headD "") '/'
    let org := orgrepo.getD 0 ""
    let repo := orgrepo.getD 1 ""
    { org := org, repo := repo, baseRef := branch,
      pathAlias := (lookupG pathAliases org).map (fun pa => pa ++ "/" ++ repo) })

/-- One tier of the node-selector assignment chain of `createJobBase`:
a non-nil (possibly empty) map replaces the previous value wholesale. -/
def overrideIfSome (prev next : Option Gmap) : Option Gmap :=
  if next.isSome then next else prev

/-- One tier of the annotation/label chain of `createJobBase`: a non-nil
map is key-wise merged over the accumulated map (`mergeMaps`, later wins);
nil leaves it unchanged.  (The global tier's plain assignment in the Go
code equals `mergeMaps [] g` definitionally.) -/
def mergeIfSome (base : Gmap) (next : Option Gmap) : Gmap :=
  match next with
  | some m => mergeMaps base m
  | none => base

/-- One tier of the cluster chain of `createJobBase`: only a non-empty
value different from the literal "default" overrides. -/
def overrideCluster (prev next : String) : String :=
  if next != "" && next != "default" then next else prev

/-- `createJobBase`: assembles the job base with the three-tier
(global < job-group < job) chains for node selector, annotations, labels
and cluster, in the source's assignment order. -/
def createJobBase (globalConfig : GlobalConfig) (jobConfig : JobsConfig) (job : Job)
    (name : String) (branch : String) (resources : RMap) : JobBase :=
  { name := name,
    maxConcurrency := job.maxConcurrency,
    spec := some
      { containers := createContainer jobConfig job resources,
        nodeSelector :=
          overrideIfSome (overrideIfSome (overrideIfSome none globalConfig.nodeSelector)
            jobConfig.nodeSelector) job.nodeSelector,
        volumes := [] },
    labels := mergeIfSome (mergeIfSome (mergeIfSome [] globalConfig.labels)
      jobConfig.labels) job.labels,
    annotations := mergeIfSome (mergeIfSome (mergeIfSome [] globalConfig.annotations)
      jobConfig.annotations) job.annotations,
    cluster := overrideCluster (overrideCluster (overrideCluster "" globalConfig.cluster)
      jobConfig.cluster) job.cluster,
    extraRefs := createExtraRefs job.repos branch globalConfig.pathAliases,
    decorate := true,
    timeout := job.timeout }

/-- A set node selector at the global tier, and the compiled node selector,
for the C3 counterexample configuration. -/
def globalC3 : GlobalConfig := { nodeSelector := some [("pool", "large")] }

/-- A job group declaring an explicitly empty (non-nil) node selector. -/
def jobsConfigC3 : JobsConfig := { image := "img", nodeSelector := some [] }

/-- The string fields of a `Job`, in declaration order — the text that the
YAML serialization of `applyMatrixJob` exposes to placeholder scanning.
The YAML marshal/unmarshal boundary is external (out of scope per the
spec); it is modelled by scanning the job's string fields, joined with
newlines (YAML syntax separates fields, and a placeholder cannot span a
separator since its character class excludes whitespace). -/
def jobStringFields (job : Job) : List String :=
  [job.name] ++ job.command ++ (job.env.map (·.name)) ++ (job.env.map (·.value))
  ++ job.types ++ job.repos
  ++ [job.image, job.imagePullPolicy, job.interval, job.cron, job.regex, job.cluster]
  ++ ((job.nodeSelector.getD []).map (·.1)) ++ ((job.nodeSelector.getD []).map (·.2))
  ++ ((job.annotations.getD []).map (·.1)) ++ ((job.annotations.getD []).map (·.2))
  ++ ((job.labels.getD []).map (·.1)) ++ ((job.labels.getD []).map (·.2))
  ++ [job.resources] ++ job.modifiers ++ job.requirements

/-- The serialized form of a job that `applyMatrixJob` scans. -/
def serializeJobModel (job : Job) : String :=
  String.intercalate "\n" (jobStringFields job)

/-- Textual substitution applied to every string field of a job (the
unmarshalling half of the YAML round trip of `applyMatrixJob`). -/
def mapJobStrings (f : String → String) (job : Job) : Job :=
  { job with
    name := f job.name,
    command := job.command.map f,
    env := job.env.map (fun e => ⟨f e.name, f e.value⟩),
    types := job.types.map f,
    repos := job.repos.map f,
    image := f job.image,
    imagePullPolicy := f job.imagePullPolicy,
    interval := f job.interval,
    cron := f job.cron,
    regex := f job.regex,
    cluster := f job.cluster,
    nodeSelector := job.nodeSelector.map (fun m => m.map (fun p => (f p.1, f p.2))),
    annotations := job.annotations.map (fun m => m.map (fun p => (f p.1, f p.2))),
    labels := job.labels.map (fun m => m.map (fun p => (f p.1, f p.2))),
    resources := f job.resources,
    modifiers := job.modifiers.map f,
    requirements := job.requirements.map f }

/-- `resolveCombinations`, acting on the structured job instead of its
serialized text (each substitution is applied to every string field). -/
def resolveCombinationsJob : List String → Job → Matrix → List Job
  | [], job, _ => [job]
  | c :: rest, job, matrix =>
    (matrixGet matrix c).flatMap fun v =>
      resolveCombinationsJob rest (mapJobStrings (fun s => replaceGo s c v) job) matrix

/-- `applyMatrixJob`: expand one declared job over the recognized matrix
axes appearing in its serialized form. -/
def applyMatrixJob (job : Job) (matrix : Matrix) : List Job :=
  resolveCombinationsJob (matrixCombs (serializeJobModel job) matrix) job matrix

/-- The presubmit name: `<job>_<repo>`, plus `_<branch>` off master. -/
def presubmitName (jobName repo branch : String) : String :=
  if branch != "master" then jobName ++ "_" ++ repo ++ "_" ++ branch
  else jobName ++ "_" ++ repo

/-- The postsubmit name: presubmit name plus `_postsubmit`. -/
def postsubmitName (jobName repo branch : String) : String :=
  presubmitName jobName repo branch ++ "_postsubmit"

/-- The periodic name: presubmit name plus `_periodic`. -/
def periodicName (jobName repo branch : String) : String :=
  presubmitName jobName repo branch ++ "_periodic"

/-- A compiled presubmit (the prow fields this tool populates). -/
structure Presubmit where
  base : JobBase
  alwaysRun : Bool
  brancher : List String
  runIfChanged : String
  pathAlias : Option String
  optional : Bool
  skipReport : Bool
deriving DecidableEq, Repr

/-- A compiled postsubmit. -/
structure Postsubmit where
  base : JobBase
  brancher : List String
  runIfChanged : String
  pathAlias : Option String
  skipReport : Bool
deriving DecidableEq, Repr

/-- A compiled periodic. -/
structure Periodic where
  base : JobBase
  interval : String
  cron : String
deriving DecidableEq, Repr

/-- `applyModifiersPresubmit`: optional sets non-blocking, hidden skips
reporting, skipped disables always-run. -/
def applyModifiersPresubmit (presubmit : Presubmit) (jobModifiers : List String) : Presubmit :=
  jobModifiers.foldl (fun p modifier =>
    if modifier == "optional" then { p with optional := true }
    else if modifier == "hidden" then { p with skipReport := true }
    else if modifier == "skipped" then { p with alwaysRun := false }
    else p) presubmit

/-- `applyModifiersPostsubmit`: optional does not exist on postsubmits and
skipped cannot apply; only hidden takes effect. -/
def applyModifiersPostsubmit (postsubmit : Postsubmit) (jobModifiers : List String) : Postsubmit :=
  jobModifiers.foldl (fun p modifier =>
    if modifier == "optional" then p
    else if modifier == "hidden" then { p with skipReport := true }
    else p) postsubmit

/-- The deduplicating requirement accumulation of `ConvertJobConfig`:
base requirements first, then job-level and group-level names not already
present, in order. -/
def effectiveRequirements (settings : GlobalConfig) (jobsConfig : JobsConfig) (job : Job) :
    List String :=
  (job.requirements ++ jobsConfig.requirements).foldl
    (fun reqs req => if goContains reqs req then reqs else reqs ++ [req])
    settings.baseRequirements

/-- The testgrid dashboard prefix: `<org>[_<branch>]_<repo>`. -/
def testgridPrefix (jobsConfig : JobsConfig) (branch : String) : String :=
  (if branch != "master" then jobsConfig.org ++ "_" ++ branch else jobsConfig.org)
    ++ "_" ++ jobsConfig.repo

/-- The presubmit branch of the per-job loop of `ConvertJobConfig`. -/
def makePresubmit (settings : GlobalConfig) (jobsConfig : JobsConfig)
    (branch : String) (job : Job) : Presubmit :=
  let jb := createJobBase settings jobsConfig job
    (presubmitName job.name jobsConfig.repo branch) branch jobsConfig.resources
  let jb := if settings.testgridConfig.enabled then
      { jb with
        annotations :=
          gput jb.annotations "testgrid-dashboards" (testgridPrefix jobsConfig branch) }
    else jb
  applyModifiersPresubmit
    { base := jb,
      alwaysRun := job.regex == "",
      brancher := ["^" ++ branch ++ "$"],
      runIfChanged := job.regex,
      pathAlias := (lookupG settings.pathAliases jobsConfig.org).map
        (fun pa => pa ++ "/" ++ jobsConfig.repo),
      optional := false, skipReport := false }
    job.modifiers

/-- The postsubmit branch of the per-job loop of `ConvertJobConfig`. -/
def makePostsubmit (settings : GlobalConfig) (jobsConfig : JobsConfig)
    (branch : String) (job : Job) : Postsubmit :=
  let jb := createJobBase settings jobsConfig job
    (postsubmitName job.name jobsConfig.repo branch) branch jobsConfig.resources
  let jb := if settings.testgridConfig.enabled then
      { jb with
        annotations :=
          gput (gput (gput jb.annotations
              "testgrid-dashboards" (testgridPrefix jobsConfig branch ++ "_postsubmit"))
            "testgrid-alert-email" settings.testgridConfig.alertEmail)
            "testgrid-num-failures-to-alert" settings.testgridConfig.numFailuresToAlert }
    else jb
  applyModifiersPostsubmit
    { base := jb,
      brancher := ["^" ++ branch ++ "$"],
      runIfChanged := job.regex,
      pathAlias := (lookupG settings.pathAliases jobsConfig.org).map
        (fun pa => pa ++ "/" ++ jobsConfig.repo),
      skipReport := false }
    job.modifiers

/-- The periodic branch of the per-job loop of `ConvertJobConfig` (when no
extra repos are declared, the job's own org/repo is checked out). -/
def makePeriodic (settings : GlobalConfig) (jobsConfig : JobsConfig)
    (branch : String) (job : Job) : Periodic :=
  let jb := createJobBase settings jobsConfig
    (if job.repos.isEmpty then
      { job with repos := [jobsConfig.org ++ "/" ++ jobsConfig.repo] }
     else job)
    (periodicName job.name jobsConfig.repo branch) branch jobsConfig.resources
  let jb := if settings.testgridConfig.enabled then
      { jb with
        annotations :=
          gput (gput (gput jb.annotations
              "testgrid-dashboards" (testgridPrefix jobsConfig branch ++ "_periodic"))
            "testgrid-alert-email" settings.testgridConfig.alertEmail)
            "testgrid-num-failures-to-alert" settings.testgridConfig.numFailuresToAlert }
    else jb
  { base := jb, interval := job.interval, cron := job.cron }

/-- The body of the per-(expanded-)job loop of `ConvertJobConfig`: one
optional presubmit (types empty or containing presubmit), one optional
postsubmit (likewise), one optional periodic (only when the types contain
periodic); requirement presets are applied to each produced job base. -/
def convertOne (settings : GlobalConfig) (jobsConfig : JobsConfig)
    (branch : String) (job : Job) :
    Option Presubmit × Option Postsubmit × Option Periodic :=
  ((if job.types.isEmpty || goContains job.types "presubmit" then
      some { makePresubmit settings jobsConfig branch job with
             base := applyRequirements (makePresubmit settings jobsConfig branch job).base
               (effectiveRequirements settings jobsConfig job)
               settings.requirementPresets }
    else none),
   (if job.types.isEmpty || goContains job.types "postsubmit" then
      some { makePostsubmit settings jobsConfig branch job with
             base := applyRequirements (makePostsubmit settings jobsConfig branch job).base
               (effectiveRequirements settings jobsConfig job)
               settings.requirementPresets }
    else none),
   (if goContains job.types "periodic" then
      some { makePeriodic settings jobsConfig branch job with
             base := applyRequirements (makePeriodic settings jobsConfig branch job).base
               (effectiveRequirements settings jobsConfig job)
               settings.requirementPresets }
    else none))

/-- The compiled output of one `ConvertJobConfig` call (the Go code keys
the presubmit/postsubmit lists under `org/repo`; the lists themselves are
what every property observes). -/
structure JobConfigOut where
  presubmits : List Presubmit
  postsubmits : List Postsubmit
  periodics : List Periodic
deriving DecidableEq, Repr

/-- `ConvertJobConfig` for one branch: expand every declared job over the
matrix, then compile each expanded job. -/
def convertJobConfig (settings : GlobalConfig) (jobsConfig : JobsConfig)
    (branch : String) : JobConfigOut :=
  { presubmits := (jobsConfig.jobs.flatMap (fun pj => applyMatrixJob pj jobsConfig.matrix)).filterMap
      (fun job => (convertOne settings jobsConfig branch job).1),
    postsubmits := (jobsConfig.jobs.flatMap (fun pj => applyMatrixJob pj jobsConfig.matrix)).filterMap
      (fun job => (convertOne settings jobsConfig branch job).2.1),
    periodics := (jobsConfig.jobs.flatMap (fun pj => applyMatrixJob pj jobsConfig.matrix)).filterMap
      (fun job => (convertOne settings jobsConfig branch job).2.2) }

/-- Modelled from the spec: the driver that invokes the compiler is not
under src/ (only `ConvertJobConfig`, which takes a single branch, is); per
§2 and §4.3 the compiler runs "for each logical job and each target
branch", i.e. the document is compiled once per declared target branch. -/
def convertAllBranches (settings : GlobalConfig) (jobsConfig : JobsConfig) :
    List JobConfigOut :=
  jobsConfig.branches.map (fun branch => convertJobConfig settings jobsConfig branch)

/-- The number of periodic descriptors a whole run produces. -/
def totalPeriodics (settings : GlobalConfig) (jobsConfig : JobsConfig) : Nat :=
  ((convertAllBranches settings jobsConfig).map (fun out => out.periodics.length)).sum

/-- Global settings for the C2 counterexample (everything default). -/
def settingsC2 : GlobalConfig := {}

/-- A job group with one periodic-typed job and two target branches. -/
def jobsConfigC2 : JobsConfig :=
  { image := "img", repo := "repo", org := "org",
    branches := ["master", "release-1.0"],
    jobs := [{ name := "nightly", command := ["make"], types := ["periodic"],
               cron := "0 2 * * *" }] }

/-- Global settings for the C9 counterexample (everything default). -/
def settingsC9 : GlobalConfig := {}

/-- A job group whose repo name is the reserved word `postsubmit` and whose
job names collide across trigger kinds under the naming scheme. -/
def jobsConfigC9 : JobsConfig :=
  { image := "img", repo := "postsubmit", org := "org",
    jobs := [{ name := "a_postsubmit", command := ["make"], types := ["presubmit"] },
             { name := "a", command := ["make"], types := ["postsubmit"] }] }

end Config

/- ===================== Theorems ===================== -/
theorem lookupG_nil (k : String) : lookupG [] k = none := rfl

theorem lookupG_cons (p : String × String) (l : Gmap) (k : String) :
    lookupG (p :: l) k = if p.1 == k then some p.2 else lookupG l k := by
  simp only [lookupG, List.find?]
  cases h : (p.1 == k) <;> simp

theorem lookupG_append (m1 m2 : Gmap) (k : String) :
    lookupG (m1 ++ m2) k = (lookupG m1 k).orElse (fun _ => lookupG m2 k) := by
  induction m1 with
  | nil => simp [lookupG, Option.orElse]
  | cons p rest ih =>
    rw [List.cons_append, lookupG_cons, lookupG_cons]
    cases h : (p.1 == k) with
    | false => simpa [h] using ih
    | true => simp [h, Option.orElse]

theorem lookupG_filter_isNone (m1 m2 : Gmap) (k : String)
    (h : (lookupG m2 k).isSome) :
    lookupG (m1.filter (fun p => (lookupG m2 p.1).isNone)) k = none := by
  induction m1 with
  | nil => rfl
  | cons p rest ih =>
    rw [List.filter_cons]
    cases hn : ((lookupG m2 p.1).isNone : Bool) with
    | false => simpa [hn] using ih
    | true =>
      have hk : (p.1 == k) = false := by
        by_contra hc
        simp only [Bool.not_eq_false, beq_iff_eq] at hc
        rw [hc] at hn
        rw [Option.isNone_iff_eq_none] at hn
        rw [hn] at h
        simp at h
      simp only [hn, if_true]
      rw [lookupG_cons, hk, if_neg (by simp)]
      exact ih

theorem lookupG_filter_keep (m1 m2 : Gmap) (k : String)
    (h : lookupG m2 k = none) :
    lookupG (m1.filter (fun p => (lookupG m2 p.1).isNone)) k = lookupG m1 k := by
  induction m1 with
  | nil => rfl
  | cons p rest ih =>
    rw [List.filter_cons, lookupG_cons]
    cases hk : (p.1 == k) with
    | true =>
      have hp : p.1 = k := by simpa using hk
      have hn : ((lookupG m2 p.1).isNone : Bool) = true := by
        rw [hp, h]; rfl
      simp only [hn, if_true]
      rw [lookupG_cons, hk]
      simp
    | false =>
      cases hn : ((lookupG m2 p.1).isNone : Bool) with
      | true =>
        simp only [hn, if_true]
        rw [lookupG_cons, hk]
        simpa [hk] using ih
      | false => simpa [hn, hk] using ih

/-- The merge is key-wise: `mp2` wins on collision, `mp1` fills the rest. -/
theorem lookupG_mergeMaps (mp1 mp2 : Gmap) (k : String) :
    lookupG (mergeMaps mp1 mp2) k = (lookupG mp2 k).orElse (fun _ => lookupG mp1 k) := by
  unfold mergeMaps
  rw [lookupG_append]
  cases h : lookupG mp2 k with
  | none => rw [lookupG_filter_keep _ _ _ h]; cases lookupG mp1 k <;> simp [Option.orElse]
  | some v =>
    rw [lookupG_filter_isNone _ _ _ (by rw [h]; rfl)]
    simp [Option.orElse]

namespace Config

theorem sum_map_const {α : Type} (l : List α) (k : Nat) :
    (l.map (fun _ => k)).sum = l.length * k := by
  induction l with
  | nil => simp
  | cons a rest ih => simp [ih, Nat.succ_mul, Nat.add_comm]

/-- The expansion count is the product of the referenced axes' sizes. -/
theorem length_resolveCombinations (combs : List String) (dest : String) (matrix : Matrix) :
    (resolveCombinations combs dest matrix).length
      = (combs.map (fun c => (matrixGet matrix c).length)).prod := by
  induction combs generalizing dest with
  | nil => simp [resolveCombinations]
  | cons c rest ih =>
    show ((matrixGet matrix c).flatMap fun v =>
        resolveCombinations rest (replaceGo dest c v) matrix).length = _
    rw [List.length_flatMap]
    have h2 : List.map (List.length ∘ fun v =>
          resolveCombinations rest (replaceGo dest c v) matrix) (matrixGet matrix c)
        = List.map (fun _ => (rest.map (fun c' => (matrixGet matrix c').length)).prod)
            (matrixGet matrix c) :=
      List.map_congr_left (fun v _ => by
        simp only [Function.comp_apply]
        exact ih (replaceGo dest c v))
    rw [h2, sum_map_const, List.map_cons, List.prod_cons, Nat.mul_comm]

theorem matrixCombs_nonempty_exps (yamlStr : String) (matrix : Matrix)
    (h : matrixCombs yamlStr matrix ≠ []) :
    (getVarSubstitutionExpressions yamlStr).isEmpty = false := by
  by_contra hc
  simp only [Bool.not_eq_false, List.isEmpty_iff] at hc
  apply h
  simp [matrixCombs, hc]

theorem applyMatrix_eq_resolve (yamlStr : String) (matrix : Matrix)
    (h : matrixCombs yamlStr matrix ≠ []) :
    applyMatrix yamlStr matrix
      = resolveCombinations (matrixCombs yamlStr matrix) yamlStr matrix := by
  unfold applyMatrix
  simp only [matrixCombs_nonempty_exps yamlStr matrix h]
  simp

/-- C1: a template whose recognized matrix axes are exactly `[a, b]` (sizes
`m` and `n`) expands to exactly `m * n` results, and a template referencing
any recognized axis whose value list is empty expands to the empty result
list (no jobs, not an error). -/
theorem applyMatrix_cardinality (t : String) (matrix : Matrix) :
    (∀ a b, matrixCombs t matrix = [a, b] →
      (applyMatrix t matrix).length
        = (matrixGet matrix a).length * (matrixGet matrix b).length)
    ∧ (∀ a, a ∈ matrixCombs t matrix → matrixGet matrix a = [] →
      applyMatrix t matrix = []) := by
  constructor
  · intro a b hab
    rw [applyMatrix_eq_resolve t matrix (by rw [hab]; simp), hab,
      length_resolveCombinations]
    simp
  · intro a ha hempty
    have hne : matrixCombs t matrix ≠ [] := by
      intro hc; rw [hc] at ha; exact absurd ha (List.not_mem_nil a)
    rw [applyMatrix_eq_resolve t matrix hne]
    rw [← List.length_eq_zero, length_resolveCombinations]
    apply List.prod_eq_zero
    rw [List.mem_map]
    exact ⟨a, ha, by rw [hempty]; rfl⟩

/-- Witness for C1 at a concrete template and axis map: two recognized axes
of sizes 2 and 2 give 4 expansions, and an empty axis gives 0 expansions.
-/
theorem applyMatrix_cardinality_witness :
    (applyMatrix "j: $(matrix.a)-$(matrix.b)" [("a", ["1", "2"]), ("b", ["u", "v"])]).length
      = (matrixGet [("a", ["1", "2"]), ("b", ["u", "v"])] "a").length
        * (matrixGet [("a", ["1", "2"]), ("b", ["u", "v"])] "b").length
    ∧ applyMatrix "k: $(matrix.z) q" [("z", [])] = [] :=
  ⟨(applyMatrix_cardinality "j: $(matrix.a)-$(matrix.b)"
      [("a", ["1", "2"]), ("b", ["u", "v"])]).1 "a" "b" (by decide),
   (applyMatrix_cardinality "k: $(matrix.z) q" [("z", [])]).2 "z"
      (by decide) (by decide)⟩

end Config

namespace Decorator

theorem hasEnv_false_entries (l : List EnvVar) (n : String)
    (h : hasEnv l n = false) : envEntries l n = [] := by
  rw [envEntries, List.filter_eq_nil_iff]
  intro e he
  rw [hasEnv, List.any_eq_false] at h
  exact by simpa using h e he

theorem hasEnv_append_one (l : List EnvVar) (e : EnvVar) (n : String) :
    hasEnv (l ++ [e]) n = (hasEnv l n || e.name == n) := by
  simp [hasEnv]

theorem envEntries_append_one (l : List EnvVar) (e : EnvVar) (n : String) :
    envEntries (l ++ [e]) n
      = envEntries l n ++ (if e.name == n then [e] else []) := by
  simp only [envEntries, List.filter_append]
  congr 1
  cases h : (e.name == n) <;> simp [List.filter, h]

theorem mergeEnv_present (new : List EnvVar) (ex : List EnvVar) (n : String)
    (h : hasEnv ex n = true) :
    envEntries (mergeEnv ex new) n = envEntries ex n
      ∧ hasEnv (mergeEnv ex new) n = true := by
  induction new generalizing ex with
  | nil => exact ⟨rfl, h⟩
  | cons e1 rest ih =>
    rw [mergeEnv]
    cases hp : (ex.any fun e2 => e2.name == e1.name) with
    | true => simpa [hp] using ih ex h
    | false =>
      have hne : (e1.name == n) = false := by
        cases hq : (e1.name == n) with
        | false => rfl
        | true =>
          have : ex.any (fun e2 => e2.name == e1.name) = true := by
            rw [hasEnv, List.any_eq_true] at h
            obtain ⟨e, he, hn⟩ := h
            rw [List.any_eq_true]
            refine ⟨e, he, ?_⟩
            simp only [beq_iff_eq] at hn hq ⊢
            rw [hn, hq]
          rw [this] at hp; cases hp
      simp only [hp, if_false, Bool.false_eq_true]
      have h2 : hasEnv (ex ++ [e1]) n = true := by
        rw [hasEnv_append_one, h]; rfl
      have := ih (ex ++ [e1]) h2
      rw [this.1, envEntries_append_one, hne] at *
      exact ⟨by simp [this.1], this.2⟩

theorem mergeEnv_absent (new : List EnvVar) (ex : List EnvVar) (n : String)
    (h : hasEnv ex n = false) :
    envEntries (mergeEnv ex new) n
      = (match new.find? (fun e => e.name == n) with
         | some e => [e]
         | none => []) := by
  induction new generalizing ex with
  | nil =>
    rw [mergeEnv, hasEnv_false_entries ex n h]
    rfl
  | cons e1 rest ih =>
    rw [mergeEnv]
    cases hq : (e1.name == n) with
    | true =>
      have hp : (ex.any fun e2 => e2.name == e1.name) = false := by
        rw [hasEnv, List.any_eq_false] at h
        rw [List.any_eq_false]
        intro e he
        have hne := h e he
        simp only [beq_iff_eq] at hq hne ⊢
        rw [hq]; exact hne
      simp only [hp, if_false, Bool.false_eq_true]
      have h2 : hasEnv (ex ++ [e1]) n = true := by
        rw [hasEnv_append_one, hq, h]; rfl
      have := (mergeEnv_present rest (ex ++ [e1]) n h2).1
      rw [this, envEntries_append_one, hq, hasEnv_false_entries ex n h]
      simp [List.find?, hq]
    | false =>
      have hfind : List.find? (fun e => e.name == n) (e1 :: rest)
          = List.find? (fun e => e.name == n) rest := by
        simp [List.find?, hq]
      rw [hfind]
      cases hp : (ex.any fun e2 => e2.name == e1.name) with
      | true => simpa [hp] using ih ex h
      | false =>
        simp only [hp, if_false, Bool.false_eq_true]
        have h2 : hasEnv (ex ++ [e1]) n = false := by
          rw [hasEnv_append_one, hq, h]; rfl
        exact ih (ex ++ [e1]) h2

/-- Folding `mergeEnv` over a list of presets: pre-existing entries always
win; otherwise exactly the first declaring preset's entry appears. -/
theorem foldEnv_characterization (ps : List RequirementPreset)
    (ex : List EnvVar) (n : String) :
    envEntries (ps.foldl (fun acc p => mergeEnv acc p.env) ex) n
      = (if hasEnv ex n then envEntries ex n
         else match firstPresetEnv ps n with
              | some e => [e]
              | none => []) := by
  induction ps generalizing ex with
  | nil =>
    cases h : hasEnv ex n with
    | true => simp [h]
    | false => simp [h, firstPresetEnv, List.findSome?, hasEnv_false_entries ex n h]
  | cons p rest ih =>
    rw [List.foldl_cons, ih]
    cases h : hasEnv ex n with
    | true =>
      have := mergeEnv_present p.env ex n h
      rw [this.2, this.1]
      simp [h]
    | false =>
      have hb := mergeEnv_absent p.env ex n h
      cases hf : p.env.find? (fun e => e.name == n) with
      | some e =>
        rw [hf] at hb
        have hhas : hasEnv (mergeEnv ex p.env) n = true := by
          cases hh : hasEnv (mergeEnv ex p.env) n with
          | true => rfl
          | false => rw [hasEnv_false_entries _ n hh] at hb; cases hb
        rw [hhas, hb]
        simp only [h, if_false, Bool.false_eq_true]
        have hfirst : firstPresetEnv (p :: rest) n = some e := by
          simp [firstPresetEnv, List.findSome?, hf]
        rw [hfirst]
        simp
      | none =>
        rw [hf] at hb
        have hno : hasEnv (mergeEnv ex p.env) n = false := by
          cases hh : hasEnv (mergeEnv ex p.env) n with
          | false => rfl
          | true =>
            rw [hasEnv, List.any_eq_true] at hh
            obtain ⟨e, he, hn⟩ := hh
            have : e ∈ envEntries (mergeEnv ex p.env) n := by
              rw [envEntries, List.mem_filter]; exact ⟨he, hn⟩
            rw [hb] at this; cases this
        rw [hno]
        simp only [h, if_false, Bool.false_eq_true]
        have : firstPresetEnv (p :: rest) n = firstPresetEnv rest n := by
          simp [firstPresetEnv, List.findSome?, hf]
        rw [this]

theorem resolve_containers (ps : List RequirementPreset)
    (annotations labels : Gmap) (s : PodSpec) :
    (ps.foldl (fun acc req => mergeRequirement acc.1 acc.2.1 acc.2.2 req)
        (annotations, labels, s)).2.2.containers
      = s.containers.map (fun c => ps.foldl mergeContainer c) := by
  induction ps generalizing annotations labels s with
  | nil => simp
  | cons req rest ih =>
    rw [List.foldl_cons, ih]
    simp [mergeRequirement, List.map_map]

theorem foldl_mergeContainer_env (ps : List RequirementPreset) (c : Container) :
    (ps.foldl mergeContainer c).env
      = ps.foldl (fun acc p => mergeEnv acc p.env) c.env := by
  induction ps generalizing c with
  | nil => rfl
  | cons p rest ih => rw [List.foldl_cons, List.foldl_cons, ih]; rfl

/-- C6: per container, a preset env var is appended only when no env var of
the same name is present: after resolving an ordered preset list, the env
entries carrying a name `n` are exactly the container's pre-existing ones
when it had any (a preset never overrides them), and otherwise exactly the
single entry contributed by the first preset in resolution order that
declares `n` (one entry even when several presets declare it). -/
theorem resolveRequirements_env_first_writer_wins
    (annotations labels : Gmap) (s : PodSpec) (ps : List RequirementPreset)
    (i : Nat) (c : Container) (n : String)
    (hc : s.containers.get? i = some c) :
    ((resolveRequirements annotations labels (some s) ps).2.2.map
        (fun s' => (s'.containers.get? i).map (fun c' => envEntries c'.env n)))
      = some (some (if hasEnv c.env n then envEntries c.env n
                    else match firstPresetEnv ps n with
                         | some e => [e]
                         | none => [])) := by
  show (some ((ps.foldl (fun acc req => mergeRequirement acc.1 acc.2.1 acc.2.2 req)
      (annotations, labels, s)).2.2)).map _ = _
  rw [Option.map_some']
  congr 1
  rw [resolve_containers, List.get?_map, hc, Option.map_some', Option.map_some']
  congr 1
  rw [foldl_mergeContainer_env, foldEnv_characterization]

/-- Witness for C6: two presets both declaring `X` on a container with no
pre-existing `X` yield exactly one `X` entry, valued from the first preset;
and a container owning `X` keeps its own value. -/
theorem resolveRequirements_env_first_writer_wins_witness :
    ((resolveRequirements [] [] (some ⟨[⟨"img", "", [], [], [], [], none, true⟩], none, []⟩)
        [{ emptyPreset with env := [⟨"X", "1"⟩] },
         { emptyPreset with env := [⟨"X", "2"⟩] }]).2.2.map
      (fun s' => (s'.containers.get? 0).map (fun c' => envEntries c'.env "X")))
      = some (some [⟨"X", "1"⟩])
    ∧ ((resolveRequirements [] [] (some ⟨[⟨"img", "", [], [], [⟨"X", "own"⟩], [], none, true⟩], none, []⟩)
        [{ emptyPreset with env := [⟨"X", "1"⟩] }]).2.2.map
      (fun s' => (s'.containers.get? 0).map (fun c' => envEntries c'.env "X")))
      = some (some [⟨"X", "own"⟩]) := by
  constructor
  · rw [resolveRequirements_env_first_writer_wins [] []
      ⟨[⟨"img", "", [], [], [], [], none, true⟩], none, []⟩
      [{ emptyPreset with env := [⟨"X", "1"⟩] },
       { emptyPreset with env := [⟨"X", "2"⟩] }] 0
      ⟨"img", "", [], [], [], [], none, true⟩ "X" (by decide)]
    decide
  · rw [resolveRequirements_env_first_writer_wins [] []
      ⟨[⟨"img", "", [], [], [⟨"X", "own"⟩], [], none, true⟩], none, []⟩
      [{ emptyPreset with env := [⟨"X", "1"⟩] }] 0
      ⟨"img", "", [], [], [⟨"X", "own"⟩], [], none, true⟩ "X" (by decide)]
    decide

/-- C7: when the resolved presets carry a non-empty union of secrets,
applying them to a job whose pod spec has more than one container fails
fatally, and applying them to a job with exactly one container succeeds,
that container gaining exactly one appended env var whose value is the
serialization of the collected secret list. -/
theorem applySecrets_single_container (job : JobBase) (presets : List RequirementPreset)
    (s : PodSpec) (hspec : job.spec = some s)
    (hsec : collectSecrets presets ≠ []) :
    (s.containers.length ≠ 1 → applySecrets job presets = none)
    ∧ (∀ c, s.containers = [c] →
        applySecrets job presets
          = some { job with spec := some { s with containers :=
              [{ c with env := c.env
                  ++ [⟨"GCP_SECRETS", serializeSecrets (collectSecrets presets)⟩] }] } }) := by
  have hne : (collectSecrets presets).isEmpty = false := by
    cases h : (collectSecrets presets).isEmpty with
    | false => rfl
    | true => exact absurd (List.isEmpty_iff.mp h) hsec
  obtain ⟨cs, ns, vs⟩ := s
  constructor
  · intro hlen
    simp only [applySecrets, hne, hspec, Bool.false_eq_true, if_false]
    match cs, hlen with
    | [], _ => rfl
    | c1 :: c2 :: rest, _ => rfl
    | [c], hlen => exact absurd rfl hlen
  · intro c hc
    simp only at hc
    subst hc
    simp only [applySecrets, hne, hspec, Bool.false_eq_true, if_false]

/-- Witness for C7: a job with two containers and a secret-carrying preset
fails; the same job with one container succeeds and its sole container
gains exactly the serialized `GCP_SECRETS` env var. -/
theorem applySecrets_single_container_witness :
    applySecrets
      ⟨"j", 0, some ⟨[⟨"img", "", [], [], [], [], none, true⟩,
        ⟨"img2", "", [], [], [], [], none, true⟩], none, []⟩, [], [], "", [], true, none⟩
      [{ emptyPreset with secrets := [⟨"sec1"⟩] }] = none
    ∧ applySecrets
      ⟨"j", 0, some ⟨[⟨"img", "", [], [], [], [], none, true⟩], none, []⟩,
        [], [], "", [], true, none⟩
      [{ emptyPreset with secrets := [⟨"sec1"⟩] }]
      = some ⟨"j", 0, some ⟨[⟨"img", "", [], [],
          [⟨"GCP_SECRETS", serializeSecrets [⟨"sec1"⟩]⟩], [], none, true⟩], none, []⟩,
          [], [], "", [], true, none⟩ := by
  constructor
  · exact (applySecrets_single_container
      ⟨"j", 0, some ⟨[⟨"img", "", [], [], [], [], none, true⟩,
        ⟨"img2", "", [], [], [], [], none, true⟩], none, []⟩, [], [], "", [], true, none⟩
      [{ emptyPreset with secrets := [⟨"sec1"⟩] }]
      ⟨[⟨"img", "", [], [], [], [], none, true⟩,
        ⟨"img2", "", [], [], [], [], none, true⟩], none, []⟩
      rfl (by decide)).1 (by decide)
  · exact (applySecrets_single_container
      ⟨"j", 0, some ⟨[⟨"img", "", [], [], [], [], none, true⟩], none, []⟩,
        [], [], "", [], true, none⟩
      [{ emptyPreset with secrets := [⟨"sec1"⟩] }]
      ⟨[⟨"img", "", [], [], [], [], none, true⟩], none, []⟩
      rfl (by decide)).2 ⟨"img", "", [], [], [], [], none, true⟩ rfl

end Decorator

namespace Config

theorem mergeContainer_empty (c : Container) :
    Decorator.mergeContainer c emptyPreset = c := by
  simp [Decorator.mergeContainer, emptyPreset, Decorator.mergeEnv, Decorator.mergeMounts]

theorem resolveRequirementsCfg_empties (job : JobBase) (presets : List RequirementPreset)
    (h : ∀ p ∈ presets, p = emptyPreset) :
    resolveRequirementsCfg job presets = job := by
  unfold resolveRequirementsCfg
  cases hs : job.spec with
  | none => rfl
  | some s =>
    have hfold : presets.foldl (fun acc req =>
        (req.labels.foldl (fun m p => gput m p.1 p.2) acc.1,
         { acc.2 with
            containers := acc.2.containers.map (fun c => Decorator.mergeContainer c req),
            volumes := Decorator.mergeVolumes acc.2.volumes req.volumes }))
        (job.labels, s) = (job.labels, s) := by
      induction presets with
      | nil => rfl
      | cons p rest ih =>
        rw [List.foldl_cons]
        have hp : p = emptyPreset := h p (List.mem_cons_self p rest)
        subst hp
        have hstep : ((emptyPreset.labels.foldl (fun m p => gput m p.1 p.2) job.labels),
            ({ s with
              containers := s.containers.map (fun c => Decorator.mergeContainer c emptyPreset),
              volumes := Decorator.mergeVolumes s.volumes emptyPreset.volumes } : PodSpec))
            = (job.labels, s) := by
          have h1 : emptyPreset.labels = [] := rfl
          have h2 : emptyPreset.volumes = [] := rfl
          rw [h1, h2]
          simp [Decorator.mergeVolumes, mergeContainer_empty]
        rw [hstep]
        exact ih (fun q hq => h q (List.mem_cons_of_mem _ hq))
    simp only [hfold]
    rw [← hs]

/-- C8: for a job whose types include periodic, validation fails when both
cron and interval are set, fails when neither is set, and this check
passes when exactly one is set and it parses under its (external) grammar;
any error this check produces makes the whole document's validation fail. -/
theorem periodic_schedule_exclusivity
    (cronValid durValid : String → Bool) (fileName : String)
    (jobsConfig : JobsConfig) (job : Job)
    (hper : goContains job.types "periodic" = true) :
    (job.cron ≠ "" → job.interval ≠ "" →
      periodicScheduleErrors cronValid durValid fileName job ≠ [])
    ∧ (job.cron = "" → job.interval = "" →
      periodicScheduleErrors cronValid durValid fileName job ≠ [])
    ∧ (job.cron ≠ "" → job.interval = "" → cronValid job.cron = true →
      periodicScheduleErrors cronValid durValid fileName job = [])
    ∧ (job.cron = "" → job.interval ≠ "" → durValid job.interval = true →
      periodicScheduleErrors cronValid durValid fileName job = [])
    ∧ (job ∈ jobsConfig.jobs →
      ∀ e ∈ periodicScheduleErrors cronValid durValid fileName job,
        e ∈ validateJobConfig cronValid durValid fileName jobsConfig) := by
  refine ⟨?_, ?_, ?_, ?_, ?_⟩
  · intro hc hi
    simp [periodicScheduleErrors, hper, hc, hi]
  · intro hc hi
    simp [periodicScheduleErrors, hper, hc, hi]
  · intro hc hi hv
    simp [periodicScheduleErrors, hper, hc, hi, hv]
  · intro hc hi hv
    simp [periodicScheduleErrors, hper, hc, hi, hv]
  · intro hjob e he
    simp only [validateJobConfig, List.mem_append, List.mem_flatMap]
    refine Or.inr ⟨job, hjob, ?_⟩
    simp only [jobValidationErrors, List.mem_append]
    tauto

/-- Witness for C8 at four concrete periodic jobs: both-set fails,
neither-set fails, valid-cron-only passes, valid-interval-only passes. -/
theorem periodic_schedule_exclusivity_witness :
    periodicScheduleErrors (fun s => s == "@daily") (fun s => s == "1h") "jobs.yaml"
      { types := ["periodic"], cron := "@daily", interval := "1h" } ≠ []
    ∧ periodicScheduleErrors (fun s => s == "@daily") (fun s => s == "1h") "jobs.yaml"
      { types := ["periodic"] } ≠ []
    ∧ periodicScheduleErrors (fun s => s == "@daily") (fun s => s == "1h") "jobs.yaml"
      { types := ["periodic"], cron := "@daily" } = []
    ∧ periodicScheduleErrors (fun s => s == "@daily") (fun s => s == "1h") "jobs.yaml"
      { types := ["periodic"], interval := "1h" } = [] := by
  refine ⟨?_, ?_, ?_, ?_⟩
  · exact (periodic_schedule_exclusivity (fun s => s == "@daily") (fun s => s == "1h")
      "jobs.yaml" {} { types := ["periodic"], cron := "@daily", interval := "1h" }
      (by decide)).1 (by decide) (by decide)
  · exact (periodic_schedule_exclusivity (fun s => s == "@daily") (fun s => s == "1h")
      "jobs.yaml" {} { types := ["periodic"] }
      (by decide)).2.1 rfl rfl
  · exact (periodic_schedule_exclusivity (fun s => s == "@daily") (fun s => s == "1h")
      "jobs.yaml" {} { types := ["periodic"], cron := "@daily" }
      (by decide)).2.2.1 (by decide) rfl (by decide)
  · exact (periodic_schedule_exclusivity (fun s => s == "@daily") (fun s => s == "1h")
      "jobs.yaml" {} { types := ["periodic"], interval := "1h" }
      (by decide)).2.2.2.1 rfl (by decide) (by decide)

/-- C4 amended: requirement names at the job-group level and at the job
level are validated against the merged preset map and an unresolved one
fails validation; but global base requirement names are never checked
anywhere, and at apply time any name missing from the preset map is
silently looked up to the zero-value preset and leaves the job unchanged
(applyRequirements has no error path at all). -/
theorem requirement_validation_coverage
    (cronValid durValid : String → Bool) (fileName : String) (jobsConfig : JobsConfig) :
    (∀ r ∈ jobsConfig.requirements,
      goContains (akeys jobsConfig.requirementPresets) r = false →
      validateJobConfig cronValid durValid fileName jobsConfig ≠ [])
    ∧ (∀ job ∈ jobsConfig.jobs, ∀ r ∈ job.requirements,
      goContains (akeys jobsConfig.requirementPresets) r = false →
      validateJobConfig cronValid durValid fileName jobsConfig ≠ [])
    ∧ (∀ (job : JobBase) (reqs : List String) (presetMap : Option PresetMap),
        (∀ r ∈ reqs, alookup (presetMap.getD []) r = none) →
        applyRequirements job reqs presetMap = job) := by
  refine ⟨?_, ?_, ?_⟩
  · intro r hr hmiss hnil
    have hv : validate r (akeys jobsConfig.requirementPresets) "requirements" ≠ none := by
      simp [validate, hmiss]
    obtain ⟨msg, hmsg⟩ := Option.ne_none_iff_exists'.mp hv
    have hmem : msg ∈ validateJobConfig cronValid durValid fileName jobsConfig := by
      simp only [validateJobConfig, List.mem_append]
      exact Or.inl (Or.inr (List.mem_filterMap.mpr ⟨r, hr, hmsg⟩))
    rw [hnil] at hmem
    simp at hmem
  · intro job hjob r hr hmiss hnil
    have hv : validate r (akeys jobsConfig.requirementPresets) "requirements" ≠ none := by
      simp [validate, hmiss]
    obtain ⟨msg, hmsg⟩ := Option.ne_none_iff_exists'.mp hv
    have hmem : msg ∈ validateJobConfig cronValid durValid fileName jobsConfig := by
      simp only [validateJobConfig, List.mem_append, List.mem_flatMap]
      refine Or.inr ⟨job, hjob, ?_⟩
      have hq : msg ∈ job.requirements.filterMap
          (fun req => validate req (akeys jobsConfig.requirementPresets) "requirements") :=
        List.mem_filterMap.mpr ⟨r, hr, hmsg⟩
      simp only [jobValidationErrors, List.mem_append]
      tauto
    rw [hnil] at hmem
    simp at hmem
  · intro job reqs presetMap hmiss
    unfold applyRequirements
    apply resolveRequirementsCfg_empties
    intro p hp
    rw [List.mem_map] at hp
    obtain ⟨r, hr, hpr⟩ := hp
    rw [hmiss r hr] at hpr
    exact hpr.symm

/-- C4 counterexample: the global base requirement name `ghost` does not
resolve in the preset store, yet the document validates with zero errors,
`applyRequirements` applies `ghost` as the zero-value preset, leaving the
job bit-for-bit unchanged, and the full compilation still produces its
descriptor — no validation or compilation failure is ever signalled. -/
theorem unresolved_base_requirement_silent :
    validateJobConfig (fun _ => true) (fun _ => true) "jobs.yaml" jobsConfigC4 = []
    ∧ goContains (akeys presetStoreC4) "ghost" = false
    ∧ applyRequirements jobBaseC4 ["ghost"] (some presetStoreC4) = jobBaseC4
    ∧ (convertJobConfig settingsC4 jobsConfigC4 "master").presubmits.length = 1 :=
  ⟨by decide, by decide, by decide, by decide⟩

/-- Witness for the amended C4: an unresolved group-level requirement
fails validation, while an unresolved name at apply time (here against a
nil preset map, as for base requirements) is a silent no-op. -/
theorem requirement_validation_coverage_witness :
    validateJobConfig (fun _ => true) (fun _ => true) "jobs.yaml"
      { jobsConfigC4 with requirements := ["ghost"] } ≠ []
    ∧ applyRequirements jobBaseC4 ["ghost"] none = jobBaseC4 := by
  constructor
  · exact (requirement_validation_coverage (fun _ => true) (fun _ => true) "jobs.yaml"
      { jobsConfigC4 with requirements := ["ghost"] }).1 "ghost" (by decide) (by decide)
  · exact (requirement_validation_coverage (fun _ => true) (fun _ => true) "jobs.yaml"
      jobsConfigC4).2.2 jobBaseC4 ["ghost"] none (fun r _ => rfl)

/-- C5: reading one job-group document writes the document's local resource
profiles through the aliased Go map into the loaded global settings: after
`ReadJobConfig` the global resource map contains the document's `custom`
profile, which it did not contain at load time.  The loaded global
configuration is therefore not immutable during a run. -/
theorem readJobConfig_mutates_global_settings :
    (readJobConfig globalC5 parsedC5).globalAfter ≠ globalC5
    ∧ alookup ((readJobConfig globalC5 parsedC5).globalAfter.resources.getD []) "custom"
        = some rrCustomC5
    ∧ alookup (globalC5.resources.getD []) "custom" = none :=
  ⟨by decide, by decide, by decide⟩

theorem lookupG_mergeIfSome (base : Gmap) (o : Option Gmap) (k : String) :
    lookupG (mergeIfSome base o) k
      = (lookupG (o.getD []) k).orElse (fun _ => lookupG base k) := by
  cases o with
  | none => simp [mergeIfSome, lookupG_nil, Option.orElse, lookupG]
  | some m => simp [mergeIfSome, lookupG_mergeMaps]

/-- C3 counterexample: an explicitly empty (non-nil) node-selector map at
the more specific job-group tier erases the global tier's set node
selector — the compiled node selector is the empty map, not the global
one — refuting "an empty value at a more specific tier never erases a set
value at a less specific tier". -/
theorem nodeSelector_empty_map_erases :
    (createJobBase globalC3 jobsConfigC3 {} "n" "master" []).spec.map
        (fun s => s.nodeSelector) = some (some [])
    ∧ globalC3.nodeSelector = some [("pool", "large")] :=
  ⟨by decide, by decide⟩

/-- C3 amended: annotations and labels are resolved independently and
key-wise with precedence global < job-group < job and a nil or empty map
never erasing anything; the cluster overrides only on a non-empty,
non-"default" value; but the node selector is replaced wholesale by any
non-nil map at a more specific tier (an explicitly empty map erases).  The
spec's concrete annotation example compiles as stated. -/
theorem createJobBase_field_precedence
    (globalConfig : GlobalConfig) (jobConfig : JobsConfig) (job : Job)
    (name branch : String) (resources : RMap) :
    (∀ k, lookupG (createJobBase globalConfig jobConfig job name branch resources).annotations k
      = (lookupG (job.annotations.getD []) k).orElse (fun _ =>
          (lookupG (jobConfig.annotations.getD []) k).orElse (fun _ =>
            lookupG (globalConfig.annotations.getD []) k)))
    ∧ (∀ k, lookupG (createJobBase globalConfig jobConfig job name branch resources).labels k
      = (lookupG (job.labels.getD []) k).orElse (fun _ =>
          (lookupG (jobConfig.labels.getD []) k).orElse (fun _ =>
            lookupG (globalConfig.labels.getD []) k)))
    ∧ ((createJobBase globalConfig jobConfig job name branch resources).spec.map
        (fun s => s.nodeSelector)
      = some (if job.nodeSelector.isSome then job.nodeSelector
              else if jobConfig.nodeSelector.isSome then jobConfig.nodeSelector
              else globalConfig.nodeSelector))
    ∧ ((createJobBase globalConfig jobConfig job name branch resources).cluster
      = overrideCluster (overrideCluster (overrideCluster "" globalConfig.cluster)
          jobConfig.cluster) job.cluster)
    ∧ (∀ k, lookupG (createJobBase { globalConfig with annotations := some [("a", "1")] }
          { jobConfig with annotations := some [("a", "2"), ("b", "2")] }
          { job with annotations := some [("b", "3")] } name branch resources).annotations k
        = lookupG [("a", "2"), ("b", "3")] k) := by
  refine ⟨?_, ?_, ?_, ?_, ?_⟩
  · intro k
    show lookupG (mergeIfSome (mergeIfSome (mergeIfSome [] globalConfig.annotations)
      jobConfig.annotations) job.annotations) k = _
    rw [lookupG_mergeIfSome, lookupG_mergeIfSome, lookupG_mergeIfSome]
    cases lookupG (job.annotations.getD []) k <;>
      cases lookupG (jobConfig.annotations.getD []) k <;>
      cases lookupG (globalConfig.annotations.getD []) k <;>
      simp [Option.orElse, lookupG_nil]
  · intro k
    show lookupG (mergeIfSome (mergeIfSome (mergeIfSome [] globalConfig.labels)
      jobConfig.labels) job.labels) k = _
    rw [lookupG_mergeIfSome, lookupG_mergeIfSome, lookupG_mergeIfSome]
    cases lookupG (job.labels.getD []) k <;>
      cases lookupG (jobConfig.labels.getD []) k <;>
      cases lookupG (globalConfig.labels.getD []) k <;>
      simp [Option.orElse, lookupG_nil]
  · show some (overrideIfSome (overrideIfSome (overrideIfSome none
      globalConfig.nodeSelector) jobConfig.nodeSelector) job.nodeSelector) = _
    congr 1
    cases hj : job.nodeSelector with
    | some m => simp [overrideIfSome, hj]
    | none =>
      cases hc : jobConfig.nodeSelector with
      | some m => simp [overrideIfSome, hc]
      | none =>
        cases hg : globalConfig.nodeSelector <;> simp [overrideIfSome]
  · rfl
  · intro k
    show lookupG (mergeIfSome (mergeIfSome (mergeIfSome [] (some [("a", "1")]))
      (some [("a", "2"), ("b", "2")])) (some [("b", "3")])) k = _
    rw [lookupG_mergeIfSome, lookupG_mergeIfSome, lookupG_mergeIfSome]
    by_cases hb : k = "b"
    · subst hb; decide
    · by_cases ha : k = "a"
      · subst ha; decide
      · have hbk : ("b" == k) = false := beq_eq_false_iff_ne.mpr (Ne.symm hb)
        have hak : ("a" == k) = false := beq_eq_false_iff_ne.mpr (Ne.symm ha)
        have h1 : lookupG [("b", "3")] k = none := by
          simp [lookupG, List.find?, hbk]
        have h2 : lookupG [("a", "2"), ("b", "2")] k = none := by
          simp [lookupG, List.find?, hak, hbk]
        have h3 : lookupG [("a", "1")] k = none := by
          simp [lookupG, List.find?, hak]
        have h4 : lookupG [("a", "2"), ("b", "3")] k = none := by
          simp [lookupG, List.find?, hak, hbk]
        simp [h1, h2, h3, h4, Option.orElse, lookupG_nil]

/-- C10: the compiled cluster is the fold of the three-tier override chain
in which an empty or "default" value never sets the field and only a
non-empty, non-"default" value overrides; hence a job declaring cluster
"default" keeps whatever the less specific tiers established. -/
theorem createJobBase_cluster_default_is_noop
    (globalConfig : GlobalConfig) (jobConfig : JobsConfig) (job : Job)
    (name branch : String) (resources : RMap) :
    ((createJobBase globalConfig jobConfig job name branch resources).cluster
      = overrideCluster (overrideCluster (overrideCluster "" globalConfig.cluster)
          jobConfig.cluster) job.cluster)
    ∧ (∀ prev, overrideCluster prev "" = prev)
    ∧ (∀ prev, overrideCluster prev "default" = prev)
    ∧ (∀ prev next, next ≠ "" → next ≠ "default" → overrideCluster prev next = next)
    ∧ (job.cluster = "default" →
        (createJobBase globalConfig jobConfig job name branch resources).cluster
          = overrideCluster (overrideCluster "" globalConfig.cluster) jobConfig.cluster) := by
  refine ⟨rfl, fun prev => rfl, fun prev => rfl, ?_, ?_⟩
  · intro prev next h1 h2
    simp [overrideCluster, h1, h2]
  · intro hj
    show overrideCluster (overrideCluster (overrideCluster "" globalConfig.cluster)
      jobConfig.cluster) job.cluster = _
    rw [hj]
    rfl

/-- Witness for C10: global cluster `gke-main`, group cluster unset, job
cluster literally `default` — the compiled job keeps `gke-main`. -/
theorem createJobBase_cluster_default_is_noop_witness :
    (createJobBase { cluster := "gke-main" } { image := "img" }
      { cluster := "default" } "n" "master" []).cluster = "gke-main" := by
  have h := (createJobBase_cluster_default_is_noop { cluster := "gke-main" }
    { image := "img" } { cluster := "default" } "n" "master" []).2.2.2.2 rfl
  rw [h]
  decide

theorem length_filterMap_countP {α β : Type} (f : α → Option β) (l : List α) :
    (l.filterMap f).length = l.countP (fun a => (f a).isSome) := by
  induction l with
  | nil => rfl
  | cons a rest ih =>
    rw [List.filterMap_cons]
    cases h : f a with
    | none => simp [List.countP_cons, h, ih]
    | some b => simp [List.countP_cons, h, ih]

theorem convertOne_periodic_isSome (settings : GlobalConfig) (jobsConfig : JobsConfig)
    (branch : String) (job : Job) :
    ((convertOne settings jobsConfig branch job).2.2).isSome
      = goContains job.types "periodic" := by
  unfold convertOne
  cases h : goContains job.types "periodic" <;> simp [h]

/-- C2 amended: within one `ConvertJobConfig` call (one branch) exactly one
periodic descriptor is produced per expanded job whose types include
periodic; since the driver compiles the document once per target branch, a
run over a group with k target branches produces k periodic descriptors
per such job — one per branch — not one per job. -/
theorem periodics_once_per_job_per_branch (settings : GlobalConfig)
    (jobsConfig : JobsConfig) (branch : String) :
    ((convertJobConfig settings jobsConfig branch).periodics.length
      = (jobsConfig.jobs.flatMap (fun pj => applyMatrixJob pj jobsConfig.matrix)).countP
          (fun j => goContains j.types "periodic"))
    ∧ (totalPeriodics settings jobsConfig
      = jobsConfig.branches.length
        * (jobsConfig.jobs.flatMap (fun pj => applyMatrixJob pj jobsConfig.matrix)).countP
            (fun j => goContains j.types "periodic")) := by
  have hone : ∀ b, (convertJobConfig settings jobsConfig b).periodics.length
      = (jobsConfig.jobs.flatMap (fun pj => applyMatrixJob pj jobsConfig.matrix)).countP
          (fun j => goContains j.types "periodic") := by
    intro b
    show ((jobsConfig.jobs.flatMap (fun pj => applyMatrixJob pj jobsConfig.matrix)).filterMap
      (fun job => (convertOne settings jobsConfig b job).2.2)).length = _
    rw [length_filterMap_countP]
    have hf : (fun j => ((convertOne settings jobsConfig b j).2.2).isSome)
        = (fun j => goContains j.types "periodic") :=
      funext (fun j => convertOne_periodic_isSome settings jobsConfig b j)
    rw [hf]
  refine ⟨hone branch, ?_⟩
  unfold totalPeriodics convertAllBranches
  rw [List.map_map]
  have hcomp : ((fun out => out.periodics.length)
        ∘ (fun b => convertJobConfig settings jobsConfig b))
      = (fun _ => (jobsConfig.jobs.flatMap
          (fun pj => applyMatrixJob pj jobsConfig.matrix)).countP
            (fun j => goContains j.types "periodic")) :=
    funext (fun b => hone b)
  rw [hcomp, sum_map_const]

/-- C2 counterexample: one periodic-typed job and two declared target
branches yield two compiled periodic descriptors for the run — one per
branch, the non-master one carrying the branch suffix in its name — not
one per job as claimed. -/
theorem periodic_compiled_per_branch :
    jobsConfigC2.jobs.length = 1
    ∧ totalPeriodics settingsC2 jobsConfigC2 = 2
    ∧ ((convertAllBranches settingsC2 jobsConfigC2).flatMap
        (fun out => out.periodics.map (fun p => p.base.name)))
      = ["nightly_repo_periodic", "nightly_repo_release-1.0_periodic"] :=
  ⟨rfl, by decide, by decide⟩

theorem applyRequirements_name (jb : JobBase) (reqs : List String)
    (pm : Option PresetMap) : (applyRequirements jb reqs pm).name = jb.name := by
  unfold applyRequirements resolveRequirementsCfg
  cases h : jb.spec <;> simp

theorem applyModifiersPresubmit_base :
    ∀ (jobModifiers : List String) (p : Presubmit),
      (applyModifiersPresubmit p jobModifiers).base = p.base := by
  intro l
  induction l with
  | nil => intro p; rfl
  | cons m rest ih =>
    intro p
    have key : (applyModifiersPresubmit p (m :: rest)).base
        = (applyModifiersPresubmit (if m == "optional" then { p with optional := true }
            else if m == "hidden" then { p with skipReport := true }
            else if m == "skipped" then { p with alwaysRun := false } else p) rest).base := rfl
    rw [key, ih]
    cases h1 : (m == "optional") <;> cases h2 : (m == "hidden") <;>
      cases h3 : (m == "skipped") <;> simp [h1, h2, h3]

theorem applyModifiersPostsubmit_base :
    ∀ (jobModifiers : List String) (p : Postsubmit),
      (applyModifiersPostsubmit p jobModifiers).base = p.base := by
  intro l
  induction l with
  | nil => intro p; rfl
  | cons m rest ih =>
    intro p
    have key : (applyModifiersPostsubmit p (m :: rest)).base
        = (applyModifiersPostsubmit (if m == "optional" then p
            else if m == "hidden" then { p with skipReport := true }
            else p) rest).base := rfl
    rw [key, ih]
    cases h1 : (m == "optional") <;> cases h2 : (m == "hidden") <;> simp [h1, h2]

theorem makePresubmit_name (settings : GlobalConfig) (jobsConfig : JobsConfig)
    (branch : String) (job : Job) :
    (makePresubmit settings jobsConfig branch job).base.name
      = presubmitName job.name jobsConfig.repo branch := by
  simp only [makePresubmit, applyModifiersPresubmit_base]
  cases h : settings.testgridConfig.enabled <;> simp [h, createJobBase]

theorem makePostsubmit_name (settings : GlobalConfig) (jobsConfig : JobsConfig)
    (branch : String) (job : Job) :
    (makePostsubmit settings jobsConfig branch job).base.name
      = postsubmitName job.name jobsConfig.repo branch := by
  simp only [makePostsubmit, applyModifiersPostsubmit_base]
  cases h : settings.testgridConfig.enabled <;> simp [h, createJobBase]

theorem makePeriodic_name (settings : GlobalConfig) (jobsConfig : JobsConfig)
    (branch : String) (job : Job) :
    (makePeriodic settings jobsConfig branch job).base.name
      = periodicName job.name jobsConfig.repo branch := by
  simp only [makePeriodic]
  cases h : settings.testgridConfig.enabled <;> simp [h, createJobBase]

theorem string_append_right_cancel (a b s : String) (h : a ++ s = b ++ s) : a = b := by
  have hd := congrArg String.data h
  simp only [String.data_append] at hd
  exact String.ext (List.append_cancel_right hd)

theorem presubmitName_injective (repo branch : String) (j1 j2 : String)
    (h : presubmitName j1 repo branch = presubmitName j2 repo branch) : j1 = j2 := by
  unfold presubmitName at h
  cases hb : (branch != "master") with
  | true =>
    rw [hb, if_pos rfl, if_pos rfl] at h
    simp only [String.append_assoc] at h
    exact string_append_right_cancel _ _ _ h
  | false =>
    rw [hb] at h
    simp only [Bool.false_eq_true, if_false] at h
    simp only [String.append_assoc] at h
    exact string_append_right_cancel _ _ _ h

/-- C9 amended: the compiled names follow the documented scheme —
presubmit `<job>_<repo>` on master and `<job>_<repo>_<branch>` otherwise,
postsubmit and periodic adding their `_postsubmit` / `_periodic` suffixes —
and within one trigger kind and one branch, distinct job names always give
distinct compiled names; the scheme does not, however, guarantee
cross-kind uniqueness (see the collision counterexample). -/
theorem compiled_job_names (settings : GlobalConfig) (jobsConfig : JobsConfig)
    (branch : String) (job : Job) :
    (∀ p, (convertOne settings jobsConfig branch job).1 = some p →
      p.base.name = presubmitName job.name jobsConfig.repo branch)
    ∧ (∀ q, (convertOne settings jobsConfig branch job).2.1 = some q →
      q.base.name = postsubmitName job.name jobsConfig.repo branch)
    ∧ (∀ r, (convertOne settings jobsConfig branch job).2.2 = some r →
      r.base.name = periodicName job.name jobsConfig.repo branch)
    ∧ presubmitName job.name jobsConfig.repo "master" = job.name ++ "_" ++ jobsConfig.repo
    ∧ (branch ≠ "master" →
      presubmitName job.name jobsConfig.repo branch
        = job.name ++ "_" ++ jobsConfig.repo ++ "_" ++ branch)
    ∧ postsubmitName job.name jobsConfig.repo branch
        = presubmitName job.name jobsConfig.repo branch ++ "_postsubmit"
    ∧ periodicName job.name jobsConfig.repo branch
        = presubmitName job.name jobsConfig.repo branch ++ "_periodic"
    ∧ (∀ j1 j2 : String, presubmitName j1 jobsConfig.repo branch
        = presubmitName j2 jobsConfig.repo branch → j1 = j2)
    ∧ (∀ j1 j2 : String, postsubmitName j1 jobsConfig.repo branch
        = postsubmitName j2 jobsConfig.repo branch → j1 = j2)
    ∧ (∀ j1 j2 : String, periodicName j1 jobsConfig.repo branch
        = periodicName j2 jobsConfig.repo branch → j1 = j2) := by
  refine ⟨?_, ?_, ?_, ?_, ?_, rfl, rfl, ?_, ?_, ?_⟩
  · intro p hp
    simp only [convertOne] at hp
    split at hp
    · cases hp
      show (applyRequirements (makePresubmit settings jobsConfig branch job).base _ _).name = _
      rw [applyRequirements_name, makePresubmit_name]
    · cases hp
  · intro q hq
    simp only [convertOne] at hq
    split at hq
    · cases hq
      show (applyRequirements (makePostsubmit settings jobsConfig branch job).base _ _).name = _
      rw [applyRequirements_name, makePostsubmit_name]
    · cases hq
  · intro r hr
    simp only [convertOne] at hr
    split at hr
    · cases hr
      show (applyRequirements (makePeriodic settings jobsConfig branch job).base _ _).name = _
      rw [applyRequirements_name, makePeriodic_name]
    · cases hr
  · simp [presubmitName]
  · intro hb
    have : (branch != "master") = true := by simpa using hb
    simp [presubmitName, this]
  · exact presubmitName_injective jobsConfig.repo branch
  · intro j1 j2 h
    unfold postsubmitName at h
    exact presubmitName_injective jobsConfig.repo branch j1 j2
      (string_append_right_cancel _ _ _ h)
  · intro j1 j2 h
    unfold periodicName at h
    exact presubmitName_injective jobsConfig.repo branch j1 j2
      (string_append_right_cancel _ _ _ h)

/-- Witness for the amended C9 at the spec's own example: job `unit-test`,
repo `myrepo`, branch `release-1.2` compiles to presubmit name
`unit-test_myrepo_release-1.2`. -/
theorem compiled_job_names_witness :
    ((convertOne ({} : GlobalConfig) { image := "img", repo := "myrepo" } "release-1.2"
        { name := "unit-test", command := ["make"] }).1.map (fun p => p.base.name))
      = some "unit-test_myrepo_release-1.2" := by
  cases hp : (convertOne ({} : GlobalConfig) { image := "img", repo := "myrepo" } "release-1.2"
      { name := "unit-test", command := ["make"] }).1 with
  | none => exact absurd hp (by decide)
  | some p =>
    rw [Option.map_some']
    congr 1
    rw [(compiled_job_names {} { image := "img", repo := "myrepo" } "release-1.2"
      { name := "unit-test", command := ["make"] }).1 p hp]
    decide

/-- C9 counterexample: two distinct jobs of different trigger kinds in one
compiled output receive the identical name `a_postsubmit_postsubmit`
(presubmit of job `a_postsubmit` and postsubmit of job `a`, repo
`postsubmit`, branch master), so name-plus-kind-plus-branch is not unique
within one compiled output. -/
theorem compiled_name_collision :
    ((convertJobConfig settingsC9 jobsConfigC9 "master").presubmits.map
        (fun p => p.base.name)) = ["a_postsubmit_postsubmit"]
    ∧ ((convertJobConfig settingsC9 jobsConfigC9 "master").postsubmits.map
        (fun q => q.base.name)) = ["a_postsubmit_postsubmit"]
    ∧ ("a_postsubmit" : String) ≠ "a" :=
  ⟨by decide, by decide, by decide⟩

end Config

